import Mathlib

/-!
Verification of the `Inspector` analysis engine of pyatoa
(`pyatoa/core/seisflows/inspector.py`).

The Inspector holds three nested string-keyed mappings (srcrcv, misfits,
windows) and offers re-slicing, filtering and statistical reductions over
them.  Python dictionaries are modelled as insertion-ordered association
lists (`Dict`), dictionary lookup as `List.lookup`, numeric values as `ℚ`
(the arithmetic performed by the code is exact on the rationals), and
fallible dictionary / list indexing as `Except String` (the string names
the Python exception class that the corresponding access would raise).
-/

namespace Pyatoa

/-- Python dict modelled as an insertion-ordered association list. -/
abbrev Dict (α : Type) := List (String × α)

/-- Python dict assignment `d[k] = v`: overwrite in place if the key is
present (a real dict holds each key at most once, so replacing the first
occurrence is the in-place overwrite), otherwise append at the end
(insertion order). -/
def dictSet (d : Dict α) (k : String) (v : α) : Dict α :=
  match d with
  | [] => [(k, v)]
  | p :: rest => if p.1 = k then (k, v) :: rest else p :: dictSet rest k v

/-- Keys of a dict, in insertion order. -/
def dictKeys (d : Dict α) : List String := d.map Prod.fst

theorem lookup_cons_of_eq {k : String} (p : String × α) (es : Dict α)
    (h : k = p.1) : List.lookup k (p :: es) = some p.2 := by
  obtain ⟨a, b⟩ := p
  subst h
  exact List.lookup_cons_self

theorem lookup_cons_of_ne {k : String} (p : String × α) (es : Dict α)
    (h : k ≠ p.1) : List.lookup k (p :: es) = List.lookup k es := by
  obtain ⟨a, b⟩ := p
  rw [List.lookup_cons]
  simp only at h
  simp [beq_eq_false_iff_ne.mpr h]

theorem lookup_dictSet_self (d : Dict α) (k : String) (v : α) :
    List.lookup k (dictSet d k v) = some v := by
  induction d with
  | nil => simp [dictSet, List.lookup]
  | cons p rest ih =>
    by_cases hpk : p.1 = k
    · rw [dictSet, if_pos hpk]
      exact lookup_cons_of_eq (k, v) rest rfl
    · rw [dictSet, if_neg hpk, lookup_cons_of_ne _ _ (fun e => hpk e.symm)]
      exact ih

theorem lookup_dictSet_ne (d : Dict α) (k k' : String) (v : α) (h : k ≠ k') :
    List.lookup k (dictSet d k' v) = List.lookup k d := by
  induction d with
  | nil =>
    show List.lookup k [(k', v)] = none
    rw [lookup_cons_of_ne _ _ h, List.lookup_nil]
  | cons p rest ih =>
    by_cases hpk : p.1 = k'
    · rw [dictSet, if_pos hpk, lookup_cons_of_ne _ _ h,
          lookup_cons_of_ne _ _ (hpk ▸ h)]
    · by_cases hk : k = p.1
      · rw [dictSet, if_neg hpk, lookup_cons_of_eq _ _ hk,
            lookup_cons_of_eq _ _ hk]
      · rw [dictSet, if_neg hpk, lookup_cons_of_ne _ _ hk,
            lookup_cons_of_ne _ _ hk]
        exact ih

theorem except_bind_ok (v : α) (f : α → Except String β) :
    (Except.ok v >>= f) = f v := rfl

theorem except_bind_err (e : String) (f : α → Except String β) :
    ((Except.error e : Except String α) >>= f) = Except.error e := rfl

/-- Map a function over the values of a dict, keeping the keys. -/
def mapVals (f : α → β) (d : Dict α) : Dict β :=
  d.map (fun p => (p.1, f p.2))

theorem lookup_mapVals (f : α → β) (d : Dict α) (k : String) :
    List.lookup k (mapVals f d) = (List.lookup k d).map f := by
  induction d with
  | nil => simp [mapVals]
  | cons p rest ih =>
    by_cases hk : k = p.1
    · rw [mapVals, List.map_cons, lookup_cons_of_eq p rest hk,
          lookup_cons_of_eq (p.1, f p.2) (List.map (fun p => (p.1, f p.2)) rest) hk]
      rfl
    · rw [mapVals, List.map_cons, lookup_cons_of_ne p rest hk,
          lookup_cons_of_ne (p.1, f p.2) (List.map (fun p => (p.1, f p.2)) rest) hk]
      exact ih

/-- Effectful map over the values of a dict (a Python dict comprehension
whose body may raise), keeping the keys. -/
def dictMapM (f : String → α → Except String β) : Dict α → Except String (Dict β)
  | [] => .ok []
  | p :: rest => do
    let v ← f p.1 p.2
    let rest' ← dictMapM f rest
    .ok ((p.1, v) :: rest')

theorem dictMapM_lookup_some {f : String → α → Except String β} :
    ∀ {d : Dict α} {d' : Dict β} {k : String} {v : α},
      dictMapM f d = .ok d' → List.lookup k d = some v →
      ∃ w, f k v = .ok w ∧ List.lookup k d' = some w := by
  intro d
  induction d with
  | nil => intro d' k v h hl; simp at hl
  | cons p rest ih =>
    intro d' k v h hl
    unfold dictMapM at h
    cases hf : f p.1 p.2 with
    | error e =>
      rw [hf, except_bind_err] at h
      exact Except.noConfusion h
    | ok w0 =>
      rw [hf, except_bind_ok] at h
      cases hr : dictMapM f rest with
      | error e =>
        rw [hr, except_bind_err] at h
        exact Except.noConfusion h
      | ok rest' =>
        rw [hr, except_bind_ok] at h
        simp only [Except.ok.injEq] at h
        subst h
        by_cases hk : k = p.1
        · subst hk
          rw [lookup_cons_of_eq _ _ rfl] at hl
          rw [lookup_cons_of_eq (p.1, w0) rest' rfl]
          cases hl
          exact ⟨w0, hf, rfl⟩
        · rw [lookup_cons_of_ne _ _ hk] at hl
          rw [lookup_cons_of_ne (p.1, w0) rest' hk]
          exact ih hr hl

theorem dictMapM_lookup_none {f : String → α → Except String β} :
    ∀ {d : Dict α} {d' : Dict β} {k : String},
      dictMapM f d = .ok d' → List.lookup k d = none →
      List.lookup k d' = none := by
  intro d
  induction d with
  | nil =>
    intro d' k h hl
    unfold dictMapM at h
    simp only [Except.ok.injEq] at h
    subst h; simp
  | cons p rest ih =>
    intro d' k h hl
    unfold dictMapM at h
    cases hf : f p.1 p.2 with
    | error e =>
      rw [hf, except_bind_err] at h
      exact Except.noConfusion h
    | ok w0 =>
      rw [hf, except_bind_ok] at h
      cases hr : dictMapM f rest with
      | error e =>
        rw [hr, except_bind_err] at h
        exact Except.noConfusion h
      | ok rest' =>
        rw [hr, except_bind_ok] at h
        simp only [Except.ok.injEq] at h
        subst h
        by_cases hk : k = p.1
        · rw [lookup_cons_of_eq _ _ hk] at hl; cases hl
        · rw [lookup_cons_of_ne _ _ hk] at hl
          rw [lookup_cons_of_ne (p.1, w0) rest' hk]
          exact ih hr hl

theorem dictMapM_lookup_rev {f : String → α → Except String β} :
    ∀ {d : Dict α} {d' : Dict β} {k : String} {w : β},
      dictMapM f d = .ok d' → List.lookup k d' = some w →
      ∃ v, List.lookup k d = some v ∧ f k v = .ok w := by
  intro d
  induction d with
  | nil =>
    intro d' k w h hl
    unfold dictMapM at h
    simp only [Except.ok.injEq] at h
    subst h; simp at hl
  | cons p rest ih =>
    intro d' k w h hl
    unfold dictMapM at h
    cases hf : f p.1 p.2 with
    | error e =>
      rw [hf, except_bind_err] at h
      exact Except.noConfusion h
    | ok w0 =>
      rw [hf, except_bind_ok] at h
      cases hr : dictMapM f rest with
      | error e =>
        rw [hr, except_bind_err] at h
        exact Except.noConfusion h
      | ok rest' =>
        rw [hr, except_bind_ok] at h
        simp only [Except.ok.injEq] at h
        subst h
        by_cases hk : k = p.1
        · subst hk
          rw [lookup_cons_of_eq (p.1, w0) rest' rfl] at hl
          rw [lookup_cons_of_eq _ _ rfl]
          cases hl
          exact ⟨p.2, rfl, hf⟩
        · rw [lookup_cons_of_ne (p.1, w0) rest' hk] at hl
          rw [lookup_cons_of_ne _ _ hk]
          exact ih hr hl

/-- Effectful traversal of a list of keys producing a dict keyed by those
keys (a Python dict comprehension `{k: f(k) for k in ks}` whose body may
raise). -/
def keysMapM (f : String → Except String β) : List String → Except String (Dict β)
  | [] => .ok []
  | k :: rest => do
    let v ← f k
    let rest' ← keysMapM f rest
    .ok ((k, v) :: rest')

theorem keysMapM_lookup {f : String → Except String β} :
    ∀ {ks : List String} {d' : Dict β} {k : String} {w : β},
      keysMapM f ks = .ok d' → List.lookup k d' = some w →
      k ∈ ks ∧ f k = .ok w := by
  intro ks
  induction ks with
  | nil =>
    intro d' k w h hl
    unfold keysMapM at h
    simp only [Except.ok.injEq] at h
    subst h; simp at hl
  | cons k0 rest ih =>
    intro d' k w h hl
    unfold keysMapM at h
    cases hf : f k0 with
    | error e =>
      rw [hf, except_bind_err] at h
      exact Except.noConfusion h
    | ok w0 =>
      rw [hf, except_bind_ok] at h
      cases hr : keysMapM f rest with
      | error e =>
        rw [hr, except_bind_err] at h
        exact Except.noConfusion h
      | ok rest' =>
        rw [hr, except_bind_ok] at h
        simp only [Except.ok.injEq] at h
        subst h
        by_cases hk : k = k0
        · rw [lookup_cons_of_eq (k0, w0) rest' hk] at hl
          cases hl
          exact ⟨hk ▸ List.mem_cons_self _ _, hk ▸ hf⟩
        · rw [lookup_cons_of_ne (k0, w0) rest' hk] at hl
          exact ⟨List.mem_cons_of_mem _ (ih hr hl).1, (ih hr hl).2⟩

/-! ### Data model of the Inspector's three record mappings -/

/-- Misfit record held at `misfits[event][model][step][station]`:
accumulated misfit value and window count (`{"msft": ..., "nwin": ...}`). -/
structure MisfitRec where
  msft : ℚ
  nwin : ℕ
  deriving Repr, DecidableEq

/-- Window record held at `windows[event][model][step][station][channel]`:
parallel lists of per-window measurements, one entry per misfit window. -/
structure ChanRec where
  cc_shift_sec : List ℚ
  dlna : List ℚ
  weight : List ℚ
  max_cc : List ℚ
  length_s : List ℚ
  rel_start : List ℚ
  rel_end : List ℚ
  deriving Repr, DecidableEq

/-- Value stored under an entity key of `srcrcv`: a numeric attribute
(lat, lon, depth_m, mag, utm coordinates, elevation), the origin time
string, or a per-station `{"dist_km", "baz"}` sub-record of an event. -/
inductive SrcVal where
  | num : ℚ → SrcVal
  | str : String → SrcVal
  | sub : Dict ℚ → SrcVal
  deriving Repr, DecidableEq

/-- The three record mappings carried by the Inspector.  The derived axis
metadata (events, stations, models, steps) is not stored: it is recomputed
by `getInfoPartition` and `getModels` below, mirroring `_get_info`. -/
structure Inspector where
  srcrcv : Dict (Dict SrcVal)
  misfits : Dict (Dict (Dict (Dict MisfitRec)))
  windows : Dict (Dict (Dict (Dict (Dict ChanRec))))

instance : DecidableEq (Dict SrcVal) := inferInstance

instance : DecidableEq (Dict (Dict SrcVal)) := inferInstance

instance : DecidableEq (Dict MisfitRec) := inferInstance

instance : DecidableEq (Dict (Dict MisfitRec)) := inferInstance

instance : DecidableEq (Dict (Dict (Dict MisfitRec))) := inferInstance

instance : DecidableEq (Dict (Dict (Dict (Dict MisfitRec)))) := inferInstance

instance : DecidableEq (Dict ChanRec) := inferInstance

instance : DecidableEq (Dict (Dict ChanRec)) := inferInstance

instance : DecidableEq (Dict (Dict (Dict ChanRec))) := inferInstance

instance : DecidableEq (Dict (Dict (Dict (Dict ChanRec)))) := inferInstance

instance : DecidableEq (Dict (Dict (Dict (Dict (Dict ChanRec))))) := inferInstance

instance : DecidableEq Inspector := fun a b =>
  decidable_of_iff
    (a.srcrcv = b.srcrcv ∧ a.misfits = b.misfits ∧ a.windows = b.windows)
    (by cases a; cases b; simp [Inspector.mk.injEq, and_assoc])

/-! ### get_misfits (Inspector.get_misfits, inspector.py lines 406-443)

The adjoint-source entries of one dataset for a given model and step are a
list of `(station_id, misfit_value)` pairs, in dataset order; a station
may appear several times (one adjoint source per channel).  The window
count per station is produced by the external helper
`count_misfit_windows(ds, model, step, count_by_stations=True)`; it is an
input here, supplied per model and step by `numWinF`. -/

/-- First loop of `get_misfits` for one event/model/step: initialise each
station's record `{"msft": 0, "nwin": num_win[sta_id]}` on first sight
(raising `KeyError` if the station is missing from `num_win`) and
accumulate `misfit` into `"msft"`. -/
def accInit (numWin : Dict ℕ) (d : Dict MisfitRec) (sta : String) :
    Except String (Dict MisfitRec) :=
  match List.lookup sta d with
  | some _ => .ok d
  | none =>
    match List.lookup sta numWin with
    | some n => .ok (dictSet d sta ⟨0, n⟩)
    | none => .error "KeyError"

def accumulateMisfits (numWin : Dict ℕ) :
    List (String × ℚ) → Dict MisfitRec → Except String (Dict MisfitRec)
  | [], d => .ok d
  | (sta, misfit) :: rest, d =>
    match accInit numWin d sta with
    | .error e => .error e
    | .ok d1 =>
      match List.lookup sta d1 with
      | some r =>
        accumulateMisfits numWin rest (dictSet d1 sta ⟨r.msft + misfit, r.nwin⟩)
      | none => .error "KeyError"

/-- Second loop of `get_misfits`: scale each station's accumulated misfit
by `2 * nwin`, once per station (`ZeroDivisionError` when `nwin == 0`). -/
def scaleMisfits : Dict MisfitRec → Except String (Dict MisfitRec)
  | [] => .ok []
  | (sta, r) :: rest =>
    if r.nwin = 0 then .error "ZeroDivisionError"
    else do
      let rest' ← scaleMisfits rest
      .ok ((sta, ⟨r.msft / (2 * (r.nwin : ℚ)), r.nwin⟩) :: rest')

/-- Body of `get_misfits` for one event/model/step. -/
def getMisfitsStep (numWin : Dict ℕ) (entries : List (String × ℚ)) :
    Except String (Dict MisfitRec) := do
  let d ← accumulateMisfits numWin entries []
  scaleMisfits d

/-- Full `get_misfits` over one dataset: iterate the model and step levels
of `AdjointSources`, running the per-step body.  `adj` is the dataset's
`AdjointSources` hierarchy (model, step, station entries in order) and
`numWinF model step` the window counts from `count_misfit_windows`. -/
def get_misfits (adj : Dict (Dict (List (String × ℚ))))
    (numWinF : String → String → Dict ℕ) :
    Except String (Dict (Dict (Dict MisfitRec))) :=
  dictMapM (fun m sd => dictMapM (fun s entries =>
    getMisfitsStep (numWinF m s) entries) sd) adj

/-- Raw misfit contributions found for station `sta` among the entries of
one event/model/step, in order. -/
def rawContributions (sta : String) (entries : List (String × ℚ)) : List ℚ :=
  (entries.filter (fun p => p.1 == sta)).map Prod.snd

/-- Characterisation of the accumulation loop: a station already present
keeps its window count and gains the sum of its raw contributions; a fresh
station that appears among the entries ends with the sum of its raw
contributions and its count from `num_win`; other stations are untouched. -/
theorem accumulateMisfits_lookup {numWin : Dict ℕ} :
    ∀ {entries : List (String × ℚ)} {d d' : Dict MisfitRec},
      accumulateMisfits numWin entries d = .ok d' → ∀ sta : String,
      match List.lookup sta d with
      | some r => List.lookup sta d' =
          some ⟨r.msft + (rawContributions sta entries).sum, r.nwin⟩
      | none =>
          if entries.any (fun p => p.1 == sta) then
            ∃ n, List.lookup sta numWin = some n ∧
              List.lookup sta d' = some ⟨(rawContributions sta entries).sum, n⟩
          else List.lookup sta d' = none := by
  intro entries
  induction entries with
  | nil =>
    intro d d' h sta
    unfold accumulateMisfits at h
    simp only [Except.ok.injEq] at h
    subst h
    cases hd : List.lookup sta d with
    | none => simp [rawContributions, hd]
    | some r => simp [rawContributions, hd]
  | cons e rest ih =>
    obtain ⟨sta0, m⟩ := e
    intro d d' h sta
    unfold accumulateMisfits at h
    -- resolve the initialisation stage into a concrete d1
    have hmain : ∃ d1 r, List.lookup sta0 d1 = some r ∧
        accumulateMisfits numWin rest (dictSet d1 sta0 ⟨r.msft + m, r.nwin⟩) = .ok d' ∧
        ((List.lookup sta0 d = some r ∧ d1 = d) ∨
         (List.lookup sta0 d = none ∧
           ∃ n, List.lookup sta0 numWin = some n ∧ r = ⟨0, n⟩ ∧
             d1 = dictSet d sta0 ⟨0, n⟩)) := by
      split at h
      · exact Except.noConfusion h
      · next d1 hinit =>
        split at h
        · next r hr =>
          refine ⟨d1, r, hr, h, ?_⟩
          unfold accInit at hinit
          split at hinit
          · next r0 hd0 =>
            cases hinit
            exact Or.inl ⟨hr, rfl⟩
          · next hd0 =>
            split at hinit
            · next n hn =>
              cases hinit
              rw [lookup_dictSet_self] at hr
              cases hr
              exact Or.inr ⟨hd0, n, hn, rfl, rfl⟩
            · exact Except.noConfusion hinit
        · exact Except.noConfusion h
    obtain ⟨d1, r, hr1, hrec, hcase⟩ := hmain
    have hih := ih hrec sta
    by_cases hss : sta = sta0
    · subst hss
      rw [lookup_dictSet_self] at hih
      have hraw : rawContributions sta ((sta, m) :: rest) =
          m :: rawContributions sta rest := by
        simp [rawContributions]
      rcases hcase with ⟨hd0, rfl⟩ | ⟨hd0, n, hn, rfl, rfl⟩
      · rw [hd0, hraw]
        simp only [List.sum_cons]
        rw [hih]
        ring_nf
      · rw [hd0, hraw]
        have : ((sta, m) :: rest).any (fun p => p.1 == sta) = true := by simp
        rw [this]
        refine ⟨n, hn, ?_⟩
        simp only [List.sum_cons]
        simpa using hih
    · rw [lookup_dictSet_ne _ _ _ _ hss] at hih
      have hd1d : List.lookup sta d1 = List.lookup sta d := by
        rcases hcase with ⟨_, rfl⟩ | ⟨_, n, _, _, rfl⟩
        · rfl
        · exact lookup_dictSet_ne _ _ _ _ hss
      rw [hd1d] at hih
      have hraw : rawContributions sta ((sta0, m) :: rest) =
          rawContributions sta rest := by
        simp [rawContributions, beq_eq_false_iff_ne.mpr (fun e => hss e.symm)]
      have hany : ((sta0, m) :: rest).any (fun p => p.1 == sta) =
          rest.any (fun p => p.1 == sta) := by
        simp [beq_eq_false_iff_ne.mpr (fun e => hss e.symm)]
      rw [hraw, hany]
      exact hih

/-- Characterisation of the scaling loop: every stored record gets its
misfit divided by `2 * nwin`, exactly once, and nothing else changes. -/
theorem scaleMisfits_lookup :
    ∀ {d d' : Dict MisfitRec}, scaleMisfits d = .ok d' → ∀ sta : String,
      List.lookup sta d' =
        (List.lookup sta d).map (fun r => ⟨r.msft / (2 * (r.nwin : ℚ)), r.nwin⟩) := by
  intro d
  induction d with
  | nil =>
    intro d' h sta
    unfold scaleMisfits at h
    simp only [Except.ok.injEq] at h
    subst h
    simp
  | cons p rest ih =>
    obtain ⟨sta0, r⟩ := p
    intro d' h sta
    unfold scaleMisfits at h
    split at h
    · exact Except.noConfusion h
    · cases hr : scaleMisfits rest with
      | error e => rw [hr, except_bind_err] at h; exact Except.noConfusion h
      | ok rest' =>
        rw [hr, except_bind_ok] at h
        simp only [Except.ok.injEq] at h
        subst h
        by_cases hss : sta = sta0
        · rw [lookup_cons_of_eq _ _ hss, lookup_cons_of_eq _ _ hss]
          rfl
        · rw [lookup_cons_of_ne _ _ hss, lookup_cons_of_ne _ _ hss]
          exact ih hr sta

/-- C1: for every event, model, and step ingested by `get_misfits`, the
stored per-station misfit equals the sum of all raw misfit contributions
found for that station divided by `2 *` that station's window count (the
count coming from the independent window counting), with the division
applied exactly once per station after all raw contributions are summed. -/
theorem get_misfits_station_scaling
    (adj : Dict (Dict (List (String × ℚ)))) (numWinF : String → String → Dict ℕ)
    (out : Dict (Dict (Dict MisfitRec))) (m s sta : String)
    (sd : Dict (Dict MisfitRec)) (stepd : Dict MisfitRec) (r : MisfitRec)
    (h : get_misfits adj numWinF = .ok out)
    (hm : List.lookup m out = some sd)
    (hs : List.lookup s sd = some stepd)
    (hsta : List.lookup sta stepd = some r) :
    ∃ msd entries,
      List.lookup m adj = some msd ∧
      List.lookup s msd = some entries ∧
      List.lookup sta (numWinF m s) = some r.nwin ∧
      r.msft = (rawContributions sta entries).sum / (2 * (r.nwin : ℚ)) := by
  obtain ⟨msd, hmsd, hstep⟩ := dictMapM_lookup_rev h hm
  obtain ⟨entries, hentries, hbody⟩ := dictMapM_lookup_rev hstep hs
  unfold getMisfitsStep at hbody
  cases hacc : accumulateMisfits (numWinF m s) entries [] with
  | error e => rw [hacc, except_bind_err] at hbody; exact Except.noConfusion hbody
  | ok d0 =>
    rw [hacc, except_bind_ok] at hbody
    have hscale := scaleMisfits_lookup hbody sta
    rw [hsta] at hscale
    have hzero := accumulateMisfits_lookup hacc sta
    rw [List.lookup_nil] at hzero
    cases hd0 : List.lookup sta d0 with
    | none => rw [hd0] at hscale; exact Option.noConfusion hscale
    | some r0 =>
      rw [hd0] at hscale
      simp only [Option.map_some'] at hscale
      by_cases hany : (entries.any fun p => p.1 == sta) = true
      · rw [if_pos hany] at hzero
        obtain ⟨n, hn, hd0'⟩ := hzero
        rw [hd0] at hd0'
        injection hd0' with hr0
        subst hr0
        injection hscale with hrr
        subst hrr
        exact ⟨msd, entries, hmsd, hentries, hn, rfl⟩
      · rw [if_neg hany] at hzero
        rw [hzero] at hd0
        exact Option.noConfusion hd0

/-- Concrete witness for C1 mirroring the spec's worked example: raw
contributions `[2.0, 3.0]` with a window count of `5` yield a scaled
misfit of `(2 + 3) / (2 * 5) = 1/2`. -/
theorem get_misfits_station_scaling_witness :
    ∃ msd entries,
      List.lookup "m00" [("m00", [("s00", [("NZ.BFZ", (2 : ℚ)), ("NZ.BFZ", (3 : ℚ))])])] = some msd ∧
      List.lookup "s00" msd = some entries ∧
      List.lookup "NZ.BFZ" [("NZ.BFZ", (5 : ℕ))] = some (MisfitRec.mk (1/2) 5).nwin ∧
      (MisfitRec.mk (1/2) 5).msft =
        (rawContributions "NZ.BFZ" entries).sum / (2 * ((MisfitRec.mk (1/2) 5).nwin : ℚ)) :=
  get_misfits_station_scaling
    [("m00", [("s00", [("NZ.BFZ", (2 : ℚ)), ("NZ.BFZ", (3 : ℚ))])])]
    (fun _ _ => [("NZ.BFZ", (5 : ℕ))])
    [("m00", [("s00", [("NZ.BFZ", ⟨1/2, 5⟩)])])] "m00" "s00" "NZ.BFZ"
    [("s00", [("NZ.BFZ", ⟨1/2, 5⟩)])] [("NZ.BFZ", ⟨1/2, 5⟩)] ⟨1/2, 5⟩
    (by norm_num [get_misfits, dictMapM, getMisfitsStep, accumulateMisfits,
                  accInit, scaleMisfits, dictSet, List.lookup, except_bind_ok,
                  except_bind_err])
    (by rfl) (by rfl) (by rfl)

/-! ### Axis metadata (Inspector._get_info, inspector.py lines 169-194) -/

/-- Python's `"." in key` test: for the single-character separator this
is the character-membership test on the string. -/
def hasDot (s : String) : Bool := s.data.any (fun ch => ch == '.')

/-- Key partition of `_get_info`: iterate the srcrcv keys, appending keys
containing "." to the station list and all others to the event list. -/
def getInfoPartition : List String → List String × List String
  | [] => ([], [])
  | k :: rest =>
    let p := getInfoPartition rest
    if hasDot k then (p.1, k :: p.2) else (k :: p.1, p.2)

/-- Model/step metadata of `_get_info`: models and per-model step lists are
read off the first event of `misfits` (an `IndexError` when `misfits` is
empty); the step comprehension looks up each model in that same first
event, which is its own entry list. -/
def getModels (misfits : Dict (Dict (Dict (Dict MisfitRec)))) :
    Except String (List String × Dict (List String)) :=
  match misfits with
  | [] => .error "IndexError"
  | p :: _ => .ok (dictKeys p.2, mapVals dictKeys p.2)

/-- C9: the derived Event list holds exactly the srcrcv keys without "."
and the derived Station list exactly those with "."; membership in the two
axis lists is decided by "."-membership alone, for every Inspector state
(hence after any sequence of append calls). -/
theorem get_info_axis_partition (ins : Inspector) :
    ((getInfoPartition (dictKeys ins.srcrcv)).1.all
        (fun k => !(hasDot k)) = true) ∧
    ((getInfoPartition (dictKeys ins.srcrcv)).2.all
        (fun k => hasDot k) = true) := by
  generalize dictKeys ins.srcrcv = keys
  induction keys with
  | nil => exact ⟨rfl, rfl⟩
  | cons k rest ih =>
    unfold getInfoPartition
    cases hc : hasDot k with
    | true => simpa [hc] using ih
    | false => simpa [hc] using ih

/-! ### sort_by_model (Inspector.sort_by_model, inspector.py lines 554-574)

The nested comprehension
`{m: {s: {e: d[e][m][s] for e in d if m in d[e]} for s in steps[m]}
     for m in models}`
filters events on membership of the model only; a missing step under a
present model is an uncaught `KeyError`. -/

/-- Innermost comprehension: events owning model `m`, each contributing
`d[e][m][s]` (a `KeyError` when step `s` is absent under model `m`). -/
def sliceEvents (d : Dict (Dict (Dict β))) (m s : String) :
    Except String (Dict β) :=
  dictMapM (fun _ md =>
      match List.lookup m md with
      | some sd =>
        match List.lookup s sd with
        | some v => Except.ok v
        | none => Except.error "KeyError"
      | none => Except.error "KeyError")
    (d.filter (fun p => (List.lookup m p.2).isSome))

/-- Outer two comprehension levels over `self.models` and `self.steps`. -/
def sort_by_model (d : Dict (Dict (Dict β))) (models : List String)
    (steps : Dict (List String)) : Except String (Dict (Dict (Dict β))) :=
  keysMapM (fun m =>
    match List.lookup m steps with
    | none => Except.error "KeyError"
    | some ss => keysMapM (fun s => sliceEvents d m s) ss) models

/-- Choice "misfits" of `sort_by_model`, with the model/step axis coming
from `_get_info` over the misfit records. -/
def sortByModelMisfits (ins : Inspector) :
    Except String (Dict (Dict (Dict (Dict MisfitRec)))) := do
  let (models, steps) ← getModels ins.misfits
  sort_by_model ins.misfits models steps

/-- Choice "windows" of `sort_by_model`; the model/step axis still comes
from `_get_info` over the misfit records. -/
def sortByModelWindows (ins : Inspector) :
    Except String (Dict (Dict (Dict (Dict (Dict ChanRec))))) := do
  let (models, steps) ← getModels ins.misfits
  sort_by_model ins.windows models steps

theorem lookup_eq_none_of_forall_ne {l : Dict α} {k : String}
    (h : ∀ p ∈ l, p.1 ≠ k) : List.lookup k l = none := by
  induction l with
  | nil => rfl
  | cons p rest ih =>
    rw [lookup_cons_of_ne p rest (fun e => h p (List.mem_cons_self p rest) e.symm)]
    exact ih (fun q hq => h q (List.mem_cons_of_mem p hq))

/-- C5 (amended): re-slicing tolerates an event that has no records at all
for a given model: whenever `sort_by_model` succeeds, such an event is
omitted from every (model, step) view of that model, without error. -/
theorem sort_by_model_omits_event_without_model
    {β : Type} (d : Dict (Dict (Dict β))) (models : List String)
    (steps : Dict (List String)) (ms : Dict (Dict (Dict β)))
    (e m s : String) (sd : Dict (Dict β)) (ed : Dict β)
    (hsort : sort_by_model d models steps = .ok ms)
    (hmodel : ∀ p ∈ d, p.1 = e → List.lookup m p.2 = none)
    (hm : List.lookup m ms = some sd)
    (hs : List.lookup s sd = some ed) :
    List.lookup e ed = none := by
  obtain ⟨-, hbody⟩ := keysMapM_lookup hsort hm
  cases hsteps : List.lookup m steps with
  | none => rw [hsteps] at hbody; exact Except.noConfusion hbody
  | some ss =>
    rw [hsteps] at hbody
    obtain ⟨-, hslice⟩ := keysMapM_lookup hbody hs
    unfold sliceEvents at hslice
    refine dictMapM_lookup_none hslice (lookup_eq_none_of_forall_ne ?_)
    intro p hp he
    have hmem := List.mem_filter.mp hp
    rw [hmodel p hmem.1 he] at hmem
    exact Bool.noConfusion hmem.2

/-- Misfit leaf used by the C5 counterexample. -/
def oneSta : Dict MisfitRec := [("NZ.BFZ", ⟨1, 1⟩)]

/-- Inspector state in which event "e2" has records for model "m00" but
only for step "s00", while the axis metadata (taken from the first event
"e1") lists steps "s00" and "s01". -/
def insMissingStep : Inspector :=
  { srcrcv := []
    misfits := [("e1", [("m00", [("s00", oneSta), ("s01", oneSta)])]),
                ("e2", [("m00", [("s00", oneSta)])])]
    windows := [] }

/-- C5 (counterexample): an event lacking one step of a model it does have
records for makes the re-slice raise `KeyError` instead of omitting the
event from that step's view, refuting the claim that missing steps are
tolerated. -/
theorem sort_by_model_missing_step_raises :
    sortByModelMisfits insMissingStep = .error "KeyError" := by rfl

/-- Concrete witness for the amended C5: an event ("e2") with no records
for model "m00" is simply absent from the (m00, s00) view. -/
theorem sort_by_model_omits_event_without_model_witness :
    List.lookup "e2" [("e1", (7 : ℕ))] = none :=
  sort_by_model_omits_event_without_model
    [("e1", [("m00", [("s00", (7 : ℕ))])]), ("e2", [("m01", [("s01", 8)])])]
    ["m00"] [("m00", ["s00"])] [("m00", [("s00", [("e1", 7)])])]
    "e2" "m00" "s00" [("s00", [("e1", 7)])] [("e1", 7)]
    (by rfl) (by decide) (by rfl) (by rfl)

/-! ### sum_misfits (Inspector.sum_misfits, inspector.py lines 678-702) -/

/-- Per-event total misfit: the inner loop of `sum_misfits` summing the
already-scaled per-station misfits of one event. -/
def eventTotalMisfit (stations : Dict MisfitRec) : ℚ :=
  (stations.map (fun p => p.2.msft)).sum

/-- Aggregate misfit: re-slice the misfits model-major, then for each
model/step divide the sum of the per-event totals by `e + 1`, where `e` is
the enumeration index of the last event, i.e. by the number of events in
the view.  A view produced by a successful re-slice always contains the
first event of `misfits`, so it is nonempty and `e + 1` is its length; on
the unreachable empty view (where Python's stale `e` would raise a
NameError or divide zero by a stale count) the model divides `0` by `0`,
yielding `0`. -/
def sum_misfits (ins : Inspector) : Except String (Dict (Dict ℚ)) := do
  let ms ← sortByModelMisfits ins
  Except.ok (mapVals (mapVals (fun ed =>
    (ed.map (fun p => eventTotalMisfit p.2)).sum / ((ed.length : ℚ)))) ms)

/-- C2: for every (model, step) view of the re-sliced Index, `sum_misfits`
stores the sum over contributing events of that event's total
(per-station-scaled) misfit, divided by the number of contributing
events. -/
theorem sum_misfits_mean_over_events
    (ins : Inspector) (ms : Dict (Dict (Dict (Dict MisfitRec))))
    (m s : String) (sd : Dict (Dict (Dict MisfitRec)))
    (ed : Dict (Dict MisfitRec))
    (hsort : sortByModelMisfits ins = .ok ms)
    (hm : List.lookup m ms = some sd)
    (hs : List.lookup s sd = some ed)
    (hne : ed ≠ []) :
    ∃ out sd', sum_misfits ins = .ok out ∧
      List.lookup m out = some sd' ∧
      List.lookup s sd' =
        some ((ed.map (fun p => eventTotalMisfit p.2)).sum / ((ed.length : ℚ))) := by
  refine ⟨mapVals (mapVals (fun ed =>
      (ed.map (fun p => eventTotalMisfit p.2)).sum / ((ed.length : ℚ)))) ms,
    mapVals (fun ed =>
      (ed.map (fun p => eventTotalMisfit p.2)).sum / ((ed.length : ℚ))) sd,
    ?_, ?_, ?_⟩
  · unfold sum_misfits
    rw [hsort, except_bind_ok]
  · rw [lookup_mapVals, hm]
    rfl
  · rw [lookup_mapVals, hs]
    rfl

/-- Inspector state with two events whose total misfits at (m00, s00) are
1 and 3. -/
def insTwoEvents : Inspector :=
  { srcrcv := []
    misfits := [("e1", [("m00", [("s00", [("NZ.AAA", ⟨1, 1⟩)])])]),
                ("e2", [("m00", [("s00", [("NZ.BBB", ⟨3, 1⟩)])])])]
    windows := [] }

/-- Concrete witness for C2 mirroring the spec's worked example: events
with total misfits 1.0 and 3.0 aggregate to (1 + 3) / 2 = 2. -/
theorem sum_misfits_mean_over_events_witness :
    (∃ out sd', sum_misfits insTwoEvents = .ok out ∧
      List.lookup "m00" out = some sd' ∧
      List.lookup "s00" sd' =
        some ((([("e1", [("NZ.AAA", (⟨1, 1⟩ : MisfitRec))]),
                 ("e2", [("NZ.BBB", ⟨3, 1⟩)])] : Dict (Dict MisfitRec)).map
                   (fun p => eventTotalMisfit p.2)).sum /
              ((([("e1", [("NZ.AAA", (⟨1, 1⟩ : MisfitRec))]),
                 ("e2", [("NZ.BBB", ⟨3, 1⟩)])] : Dict (Dict MisfitRec)).length : ℚ)))) ∧
    (([("e1", [("NZ.AAA", (⟨1, 1⟩ : MisfitRec))]),
       ("e2", [("NZ.BBB", ⟨3, 1⟩)])] : Dict (Dict MisfitRec)).map
         (fun p => eventTotalMisfit p.2)).sum /
      ((([("e1", [("NZ.AAA", (⟨1, 1⟩ : MisfitRec))]),
         ("e2", [("NZ.BBB", ⟨3, 1⟩)])] : Dict (Dict MisfitRec)).length : ℚ)) = 2 :=
  ⟨sum_misfits_mean_over_events insTwoEvents
      [("m00", [("s00", [("e1", [("NZ.AAA", ⟨1, 1⟩)]),
                         ("e2", [("NZ.BBB", ⟨3, 1⟩)])])])]
      "m00" "s00"
      [("s00", [("e1", [("NZ.AAA", ⟨1, 1⟩)]), ("e2", [("NZ.BBB", ⟨3, 1⟩)])])]
      [("e1", [("NZ.AAA", ⟨1, 1⟩)]), ("e2", [("NZ.BBB", ⟨3, 1⟩)])]
      (by rfl) (by rfl) (by rfl) (by simp),
   by norm_num [eventTotalMisfit]⟩

/-! ### measurements (Inspector.measurements, inspector.py lines 644-676)

The method pre-initialises a zero per-(model, step) entry for both the
cumulative window length and the window count, then loops over every
event, station and channel of the model-major windows, adding
`len(w_["dlna"])` to the count and each entry of `w_["length_s"]` to the
cumulative length; the per-entry accumulation over distinct (model, step)
keys is written below directly as the per-entry sum. -/

/-- Channel records reachable under one (model, step) view, in loop
order (events, then stations, then channels). -/
def stepChanRecs (ed : Dict (Dict (Dict ChanRec))) : List ChanRec :=
  ed.flatMap (fun ep => ep.2.flatMap (fun sp => sp.2.map (fun cp => cp.2)))

/-- Cumulative window length of one (model, step) view: the sum of every
entry of every channel's `length_s` list. -/
def stepCumWinLen (ed : Dict (Dict (Dict ChanRec))) : ℚ :=
  ((stepChanRecs ed).map (fun r => r.length_s.sum)).sum

/-- Window count of one (model, step) view: the code counts
`len(w_["dlna"])` per channel. -/
def stepNumWindows (ed : Dict (Dict (Dict ChanRec))) : ℕ :=
  ((stepChanRecs ed).map (fun r => r.dlna.length)).sum

/-- Every window length reachable under one (model, step) view. -/
def allWinLengths (ed : Dict (Dict (Dict ChanRec))) : List ℚ :=
  (stepChanRecs ed).flatMap (fun r => r.length_s)

/-- Inspector.measurements: assert the choice, re-slice the windows
model-major, and return the selected model→step→scalar mapping (window
counts, Python ints, are embedded into ℚ). -/
def measurements (ins : Inspector) (choice : String) :
    Except String (Dict (Dict ℚ)) :=
  if choice = "cum_win_len" ∨ choice = "num_windows" then do
    let ws ← sortByModelWindows ins
    if choice = "cum_win_len" then
      Except.ok (mapVals (mapVals stepCumWinLen) ws)
    else
      Except.ok (mapVals (mapVals (fun ed => ((stepNumWindows ed : ℕ) : ℚ))) ws)
  else Except.error "AssertionError"

/-- C8: for every (model, step) view, `measurements "cum_win_len"` stores
the sum of all window lengths across all events/stations/channels, and
`measurements "num_windows"` stores the total number of windows, provided
the parallel-list invariant of the window records (one `dlna` entry per
window, i.e. per `length_s` entry) holds on the view. -/
theorem measurements_cum_len_and_num_windows
    (ins : Inspector) (ws : Dict (Dict (Dict (Dict (Dict ChanRec)))))
    (m s : String) (sd : Dict (Dict (Dict (Dict ChanRec))))
    (ed : Dict (Dict (Dict ChanRec)))
    (hsort : sortByModelWindows ins = .ok ws)
    (hm : List.lookup m ws = some sd)
    (hs : List.lookup s sd = some ed)
    (hpar : ∀ r ∈ stepChanRecs ed, r.dlna.length = r.length_s.length) :
    ∃ cw nw sdc sdn,
      measurements ins "cum_win_len" = .ok cw ∧
      measurements ins "num_windows" = .ok nw ∧
      List.lookup m cw = some sdc ∧
      List.lookup s sdc = some ((allWinLengths ed).sum) ∧
      List.lookup m nw = some sdn ∧
      List.lookup s sdn = some (((allWinLengths ed).length : ℕ) : ℚ) := by
  have hcum : stepCumWinLen ed = (allWinLengths ed).sum := by
    simp only [stepCumWinLen, allWinLengths, List.flatMap, List.sum_flatten,
          List.map_map]
    rfl
  have hnum : stepNumWindows ed = (allWinLengths ed).length := by
    rw [allWinLengths, List.length_flatMap, stepNumWindows]
    exact congrArg List.sum
      (List.map_congr_left (fun r hr => by
        simpa [Function.comp] using hpar r hr))
  refine ⟨mapVals (mapVals stepCumWinLen) ws,
          mapVals (mapVals (fun ed => ((stepNumWindows ed : ℕ) : ℚ))) ws,
          mapVals stepCumWinLen sd,
          mapVals (fun ed => ((stepNumWindows ed : ℕ) : ℚ)) sd,
          ?_, ?_, ?_, ?_, ?_, ?_⟩
  · unfold measurements
    rw [if_pos (Or.inl rfl), hsort, except_bind_ok, if_pos rfl]
  · unfold measurements
    rw [if_pos (Or.inr rfl), hsort, except_bind_ok,
        if_neg (by decide : ¬("num_windows" = "cum_win_len"))]
  · rw [lookup_mapVals, hm]
    rfl
  · rw [lookup_mapVals, hs, Option.map_some', hcum]
  · rw [lookup_mapVals, hm]
    rfl
  · rw [lookup_mapVals, hs, Option.map_some', hnum]

/-- Channel with window length list [1.5, 2.0] (two windows). -/
def chanTwoWins : ChanRec :=
  { cc_shift_sec := [0, 0], dlna := [0, 0], weight := [0, 0],
    max_cc := [0, 0], length_s := [3/2, 2], rel_start := [0, 0],
    rel_end := [0, 0] }

/-- Channel with window length list [3.0] (one window). -/
def chanOneWin : ChanRec :=
  { cc_shift_sec := [0], dlna := [0], weight := [0], max_cc := [0],
    length_s := [3], rel_start := [0], rel_end := [0] }

/-- Inspector state with two channels holding window length lists
[1.5, 2.0] and [3.0] under (m00, s00). -/
def insTwoChannels : Inspector :=
  { srcrcv := []
    misfits := [("e1", [("m00", [("s00", [])])])]
    windows := [("e1", [("m00", [("s00",
      [("NZ.AAA", [("Z", chanTwoWins), ("N", chanOneWin)])])])])] }

/-- Concrete witness for C8 mirroring the spec's worked example: window
length lists [1.5, 2.0] and [3.0] give cumulative length 6.5 and window
count 3. -/
theorem measurements_cum_len_and_num_windows_witness :
    (∃ cw nw sdc sdn,
      measurements insTwoChannels "cum_win_len" = .ok cw ∧
      measurements insTwoChannels "num_windows" = .ok nw ∧
      List.lookup "m00" cw = some sdc ∧
      List.lookup "s00" sdc =
        some ((allWinLengths
          [("e1", [("NZ.AAA", [("Z", chanTwoWins), ("N", chanOneWin)])])]).sum) ∧
      List.lookup "m00" nw = some sdn ∧
      List.lookup "s00" sdn =
        some (((allWinLengths
          [("e1", [("NZ.AAA", [("Z", chanTwoWins), ("N", chanOneWin)])])]).length : ℕ) : ℚ)) ∧
    (allWinLengths
      [("e1", [("NZ.AAA", [("Z", chanTwoWins), ("N", chanOneWin)])])]).sum = 13/2 ∧
    (allWinLengths
      [("e1", [("NZ.AAA", [("Z", chanTwoWins), ("N", chanOneWin)])])]).length = 3 :=
  ⟨measurements_cum_len_and_num_windows insTwoChannels
      [("m00", [("s00", [("e1", [("NZ.AAA", [("Z", chanTwoWins), ("N", chanOneWin)])])])])]
      "m00" "s00"
      [("s00", [("e1", [("NZ.AAA", [("Z", chanTwoWins), ("N", chanOneWin)])])])]
      [("e1", [("NZ.AAA", [("Z", chanTwoWins), ("N", chanOneWin)])])]
      (by rfl) (by rfl) (by rfl)
      (by
        intro r hr
        simp only [stepChanRecs, List.flatMap, List.map, List.flatten,
          List.append_nil, List.mem_cons, List.not_mem_nil, or_false] at hr
        rcases hr with rfl | rfl <;> rfl),
   by norm_num [allWinLengths, stepChanRecs, chanTwoWins, chanOneWin, List.flatMap],
   by rfl⟩

/-! ### sort_by_window (Inspector.sort_by_window, inspector.py lines 576-605) -/

/-- Dictionary access `windows[...][comp][choice]`: the measurement list
selected by the choice key of a channel record (`KeyError` otherwise). -/
def chanField (r : ChanRec) (choice : String) : Except String (List ℚ) :=
  if choice = "cc_shift_sec" then .ok r.cc_shift_sec
  else if choice = "dlna" then .ok r.dlna
  else if choice = "weight" then .ok r.weight
  else if choice = "max_cc" then .ok r.max_cc
  else if choice = "length_s" then .ok r.length_s
  else if choice = "rel_start" then .ok r.rel_start
  else if choice = "rel_end" then .ok r.rel_end
  else .error "KeyError"

/-- Effectful concatenation over a list (nested loops appending to shared
accumulators, in loop order). -/
def listFlatMapM (f : α → Except String (List β)) :
    List α → Except String (List β)
  | [] => .ok []
  | a :: rest => do
    let b ← f a
    let r ← listFlatMapM f rest
    .ok (b ++ r)

/-- Collection loops of `sort_by_window`: for each event, station and
channel of one (model, step) view, pair each measurement value of the
chosen kind with its (event, station, channel) identity tuple, in loop
order. -/
def collectWindowValues (ed : Dict (Dict (Dict ChanRec))) (choice : String) :
    Except String (List (ℚ × (String × String × String))) :=
  listFlatMapM (fun ep =>
    listFlatMapM (fun sp =>
      listFlatMapM (fun cp => do
        let vals ← chanField cp.2 choice
        Except.ok (vals.map (fun v => (v, (ep.1, sp.1, cp.1)))))
      sp.2)
    ep.2)
  ed

/-- Lexicographic order on identity tuples, as Python compares string
3-tuples. -/
def identLe (a b : String × String × String) : Prop :=
  a.1 < b.1 ∨ (a.1 = b.1 ∧
    (a.2.1 < b.2.1 ∨ (a.2.1 = b.2.1 ∧ a.2.2 ≤ b.2.2)))

/-- Order used by Python's `sorted(zip(values, info))`: pairs compare by
value first, then by identity tuple. -/
def winPairLe (a b : ℚ × (String × String × String)) : Prop :=
  a.1 < b.1 ∨ (a.1 = b.1 ∧ identLe a.2 b.2)

instance : DecidableRel identLe := fun a b => by
  unfold identLe; infer_instance

instance : DecidableRel winPairLe := fun a b => by
  unfold winPairLe; infer_instance

theorem identLe_total (a b : String × String × String) :
    identLe a b ∨ identLe b a := by
  rcases lt_trichotomy a.1 b.1 with h | h | h
  · exact Or.inl (Or.inl h)
  · rcases lt_trichotomy a.2.1 b.2.1 with h2 | h2 | h2
    · exact Or.inl (Or.inr ⟨h, Or.inl h2⟩)
    · cases le_total a.2.2 b.2.2 with
      | inl h3 => exact Or.inl (Or.inr ⟨h, Or.inr ⟨h2, h3⟩⟩)
      | inr h3 => exact Or.inr (Or.inr ⟨h.symm, Or.inr ⟨h2.symm, h3⟩⟩)
    · exact Or.inr (Or.inr ⟨h.symm, Or.inl h2⟩)
  · exact Or.inr (Or.inl h)

theorem identLe_trans (a b c : String × String × String)
    (hab : identLe a b) (hbc : identLe b c) : identLe a c := by
  rcases hab with h1 | ⟨e1, h1⟩
  · rcases hbc with h2 | ⟨e2, h2⟩
    · exact Or.inl (h1.trans h2)
    · exact Or.inl (lt_of_lt_of_eq h1 e2)
  · rcases hbc with h2 | ⟨e2, h2⟩
    · exact Or.inl (lt_of_eq_of_lt e1 h2)
    · refine Or.inr ⟨e1.trans e2, ?_⟩
      rcases h1 with g1 | ⟨f1, g1⟩
      · rcases h2 with g2 | ⟨f2, g2⟩
        · exact Or.inl (g1.trans g2)
        · exact Or.inl (lt_of_lt_of_eq g1 f2)
      · rcases h2 with g2 | ⟨f2, g2⟩
        · exact Or.inl (lt_of_eq_of_lt f1 g2)
        · exact Or.inr ⟨f1.trans f2, g1.trans g2⟩

theorem winPairLe_total (a b : ℚ × (String × String × String)) :
    winPairLe a b ∨ winPairLe b a := by
  rcases lt_trichotomy a.1 b.1 with h | h | h
  · exact Or.inl (Or.inl h)
  · cases identLe_total a.2 b.2 with
    | inl h2 => exact Or.inl (Or.inr ⟨h, h2⟩)
    | inr h2 => exact Or.inr (Or.inr ⟨h.symm, h2⟩)
  · exact Or.inr (Or.inl h)

theorem winPairLe_trans (a b c : ℚ × (String × String × String))
    (hab : winPairLe a b) (hbc : winPairLe b c) : winPairLe a c := by
  rcases hab with h1 | ⟨e1, h1⟩
  · rcases hbc with h2 | ⟨e2, h2⟩
    · exact Or.inl (h1.trans h2)
    · exact Or.inl (lt_of_lt_of_eq h1 e2)
  · rcases hbc with h2 | ⟨e2, h2⟩
    · exact Or.inl (lt_of_eq_of_lt e1 h2)
    · exact Or.inr ⟨e1.trans e2, identLe_trans a.2 b.2 c.2 h1 h2⟩

instance : IsTotal (ℚ × (String × String × String)) winPairLe :=
  ⟨winPairLe_total⟩

instance : IsTrans (ℚ × (String × String × String)) winPairLe :=
  ⟨winPairLe_trans⟩

/-- Inspector.sort_by_window: collect every (value, identity) pair of the
chosen measurement kind under (model, step), sort the pairs (Python's
`sorted` on tuples: the stable sort under the pair order above, modelled
by insertion sort), and unzip into the value list and the identity list.
An empty collection makes the final tuple unpacking raise (ValueError). -/
def sort_by_window (ins : Inspector) (model step choice : String) :
    Except String (List ℚ × List (String × String × String)) :=
  match sortByModelWindows ins with
  | .error e => .error e
  | .ok ws =>
    match List.lookup model ws with
    | none => .error "KeyError"
    | some sd =>
      match List.lookup step sd with
      | none => .error "KeyError"
      | some ed =>
        match collectWindowValues ed choice with
        | .error e => .error e
        | .ok [] => .error "ValueError"
        | .ok (p :: ps) =>
          .ok ((List.insertionSort winPairLe (p :: ps)).map Prod.fst,
               (List.insertionSort winPairLe (p :: ps)).map Prod.snd)

theorem zip_map_fst_snd {α β : Type} (l : List (α × β)) :
    (l.map Prod.fst).zip (l.map Prod.snd) = l := by
  induction l with
  | nil => rfl
  | cons p rest ih => simp only [List.map_cons, List.zip_cons_cons, ih]

/-- C7: whenever `sort_by_window` returns, the returned value list is
sorted ascending and the value/identity pairing is a permutation of the
collected matching pairs: identities are reordered by the same
permutation as their values. -/
theorem sort_by_window_cosorts
    (ins : Inspector) (model step choice : String)
    (ws : Dict (Dict (Dict (Dict (Dict ChanRec)))))
    (sd : Dict (Dict (Dict (Dict ChanRec)))) (ed : Dict (Dict (Dict ChanRec)))
    (pairs : List (ℚ × (String × String × String)))
    (values : List ℚ) (info : List (String × String × String))
    (hsort : sortByModelWindows ins = .ok ws)
    (hm : List.lookup model ws = some sd)
    (hs : List.lookup step sd = some ed)
    (hcollect : collectWindowValues ed choice = .ok pairs)
    (hrun : sort_by_window ins model step choice = .ok (values, info)) :
    List.Sorted (· ≤ ·) values ∧ (values.zip info).Perm pairs := by
  unfold sort_by_window at hrun
  simp only [hsort, hm, hs, hcollect] at hrun
  cases pairs with
  | nil => exact Except.noConfusion hrun
  | cons p ps =>
    simp only [Except.ok.injEq, Prod.mk.injEq] at hrun
    obtain ⟨hv, hi⟩ := hrun
    subst hv
    subst hi
    constructor
    · refine List.Pairwise.map Prod.fst ?_ (List.sorted_insertionSort winPairLe (p :: ps))
      intro a b hab
      rcases hab with h | ⟨h, -⟩
      · exact le_of_lt h
      · exact le_of_eq h
    · rw [zip_map_fst_snd]
      exact List.perm_insertionSort winPairLe (p :: ps)

/-- Channel record holding a single cc_shift_sec measurement. -/
def chanVal (v : ℚ) : ChanRec :=
  { cc_shift_sec := [v], dlna := [], weight := [], max_cc := [],
    length_s := [], rel_start := [], rel_end := [] }

/-- Inspector state holding window values [0.3, -0.1, 0.2] under the
identity tuples (e1, NZ.S1, Z), (e2, NZ.S2, Z), (e3, NZ.S3, Z). -/
def insThreeVals : Inspector :=
  { srcrcv := []
    misfits := [("e1", [("m00", [("s00", [])])])]
    windows :=
      [("e1", [("m00", [("s00", [("NZ.S1", [("Z", chanVal (3/10))])])])]),
       ("e2", [("m00", [("s00", [("NZ.S2", [("Z", chanVal (-1/10))])])])]),
       ("e3", [("m00", [("s00", [("NZ.S3", [("Z", chanVal (2/10))])])])])] }

/-- Concrete witness for C7 mirroring the spec's worked example: values
[0.3, -0.1, 0.2] come back as [-0.1, 0.2, 0.3] with the identity tuples
reordered by the same permutation. -/
theorem sort_by_window_cosorts_witness :
    List.Sorted (· ≤ ·) [(-1 : ℚ)/10, 2/10, 3/10] ∧
    (([(-1 : ℚ)/10, 2/10, 3/10].zip
        [("e2", "NZ.S2", "Z"), ("e3", "NZ.S3", "Z"), ("e1", "NZ.S1", "Z")]).Perm
      [((3 : ℚ)/10, ("e1", "NZ.S1", "Z")), (-1/10, ("e2", "NZ.S2", "Z")),
       (2/10, ("e3", "NZ.S3", "Z"))]) :=
  sort_by_window_cosorts insThreeVals "m00" "s00" "cc_shift_sec"
    [("m00", [("s00",
      [("e1", [("NZ.S1", [("Z", chanVal (3/10))])]),
       ("e2", [("NZ.S2", [("Z", chanVal (-1/10))])]),
       ("e3", [("NZ.S3", [("Z", chanVal (2/10))])])])])]
    [("s00",
      [("e1", [("NZ.S1", [("Z", chanVal (3/10))])]),
       ("e2", [("NZ.S2", [("Z", chanVal (-1/10))])]),
       ("e3", [("NZ.S3", [("Z", chanVal (2/10))])])])]
    [("e1", [("NZ.S1", [("Z", chanVal (3/10))])]),
     ("e2", [("NZ.S2", [("Z", chanVal (-1/10))])]),
     ("e3", [("NZ.S3", [("Z", chanVal (2/10))])])]
    [((3 : ℚ)/10, ("e1", "NZ.S1", "Z")), (-1/10, ("e2", "NZ.S2", "Z")),
     (2/10, ("e3", "NZ.S3", "Z"))]
    [(-1 : ℚ)/10, 2/10, 3/10]
    [("e2", "NZ.S2", "Z"), ("e3", "NZ.S3", "Z"), ("e1", "NZ.S1", "Z")]
    (by rfl) (by rfl) (by rfl) (by rfl)
    (by norm_num [insThreeVals, sort_by_window, sortByModelWindows, getModels,
      sort_by_model, keysMapM, sliceEvents, dictMapM, collectWindowValues,
      listFlatMapM, chanField, chanVal, List.insertionSort, List.orderedInsert,
      winPairLe, identLe, except_bind_ok, dictKeys, mapVals, List.lookup])

/-! ### misfit_values (Inspector.misfit_values, inspector.py lines 332-354)

The third loop, `for step_ in self.misfits[event][model][step]`, iterates
the keys of the step-level mapping — station identifiers — and compares
them to the step identifier; only on a match does the innermost loop
append every station's misfit. -/

/-- Innermost loop: `self.misfits[event][model][step][sta]["msft"]` for
each station key `sta` of the step-level mapping (a dict lookup of each
of its own keys, so the first matching entry's value). -/
def lookupMsfts (staDict : Dict MisfitRec) : List ℚ :=
  staDict.filterMap (fun p => (List.lookup p.1 staDict).map MisfitRec.msft)

/-- Third loop of `misfit_values`: over the keys of the step-level
mapping, appending every station's misfit whenever the key equals the
step identifier. -/
def mvStep (staDict : Dict MisfitRec) (step : String) (acc : List ℚ) :
    List ℚ :=
  staDict.foldl
    (fun a p => if p.1 = step then a ++ lookupMsfts staDict else a) acc

/-- Second loop of `misfit_values`, over the model keys of one event:
keys different from the queried model are skipped; a match indexes
`misfits[event][model][step]` (a `KeyError` when the step is absent)
and runs the station-key loop. -/
def mvModelLoop (md : Dict (Dict (Dict MisfitRec))) (model step : String) :
    List (String × Dict (Dict MisfitRec)) → List ℚ → Except String (List ℚ)
  | [], acc => .ok acc
  | mp :: rest, acc =>
    if mp.1 ≠ model then mvModelLoop md model step rest acc
    else
      match List.lookup model md with
      | none => .error "KeyError"
      | some sd =>
        match List.lookup step sd with
        | none => .error "KeyError"
        | some staDict => mvModelLoop md model step rest (mvStep staDict step acc)

/-- Outer loop of `misfit_values`, over events. -/
def mvEventLoop (model step : String) :
    Dict (Dict (Dict (Dict MisfitRec))) → List ℚ → Except String (List ℚ)
  | [], acc => .ok acc
  | ep :: rest, acc =>
    match mvModelLoop ep.2 model step ep.2 acc with
    | .error e => .error e
    | .ok acc' => mvEventLoop model step rest acc'

/-- Inspector.misfit_values. -/
def misfit_values (ins : Inspector) (model step : String) :
    Except String (List ℚ) :=
  mvEventLoop model step ins.misfits []

theorem lookup_mem {l : Dict α} {k : String} {v : α}
    (h : List.lookup k l = some v) : (k, v) ∈ l := by
  induction l with
  | nil => simp at h
  | cons p rest ih =>
    by_cases hk : k = p.1
    · rw [lookup_cons_of_eq p rest hk] at h
      cases h
      exact hk ▸ List.mem_cons_self p rest
    · rw [lookup_cons_of_ne p rest hk] at h
      exact List.mem_cons_of_mem p (ih h)

theorem mvStep_of_no_match {staDict : Dict MisfitRec} {step : String}
    (h : ∀ q ∈ staDict, q.1 ≠ step) :
    ∀ acc, mvStep staDict step acc = acc := by
  unfold mvStep
  suffices hgen : ∀ (l : List (String × MisfitRec)) (acc : List ℚ),
      (∀ q ∈ l, q.1 ≠ step) →
      l.foldl (fun a p => if p.1 = step then a ++ lookupMsfts staDict else a)
        acc = acc by
    intro acc
    exact hgen staDict acc h
  intro l
  induction l with
  | nil => intro acc _; rfl
  | cons q rest ih =>
    intro acc hq
    rw [List.foldl_cons, if_neg (hq q (List.mem_cons_self q rest))]
    exact ih acc (fun r hr => hq r (List.mem_cons_of_mem q hr))

theorem mvModelLoop_of_no_match {md : Dict (Dict (Dict MisfitRec))}
    {model step : String}
    (hsta : ∀ mp ∈ md, ∀ sp ∈ mp.2, ∀ q ∈ sp.2, q.1 ≠ step) :
    ∀ (l : List (String × Dict (Dict MisfitRec))) (acc acc' : List ℚ),
      mvModelLoop md model step l acc = .ok acc' → acc' = acc := by
  intro l
  induction l with
  | nil =>
    intro acc acc' h
    unfold mvModelLoop at h
    cases h
    rfl
  | cons mp rest ih =>
    intro acc acc' h
    unfold mvModelLoop at h
    split at h
    · exact ih acc acc' h
    · split at h
      · exact Except.noConfusion h
      · next sd hsd =>
        split at h
        · exact Except.noConfusion h
        · next staDict hstep =>
          have h1 : ∀ q ∈ staDict, q.1 ≠ step :=
            hsta (model, sd) (lookup_mem hsd) (step, staDict) (lookup_mem hstep)
          rw [mvStep_of_no_match h1] at h
          exact ih acc acc' h

/-- C10 (amended): whenever `misfit_values(model, step)` completes without
a lookup error, and no station key of any step-level mapping equals the
queried step identifier, the returned list is empty: the filter that was
meant to select the step compares station keys against the step
identifier, so no misfit value is ever collected. -/
theorem misfit_values_empty_when_no_station_matches
    (ins : Inspector) (model step : String) (res : List ℚ)
    (hsta : ∀ ep ∈ ins.misfits, ∀ mp ∈ ep.2, ∀ sp ∈ mp.2, ∀ q ∈ sp.2,
      q.1 ≠ step)
    (hok : misfit_values ins model step = .ok res) :
    res = [] := by
  unfold misfit_values at hok
  suffices hgen : ∀ (l : Dict (Dict (Dict (Dict MisfitRec)))) (acc res : List ℚ),
      (∀ ep ∈ l, ∀ mp ∈ ep.2, ∀ sp ∈ mp.2, ∀ q ∈ sp.2, q.1 ≠ step) →
      mvEventLoop model step l acc = .ok res → res = acc by
    exact hgen ins.misfits [] res hsta hok
  intro l
  induction l with
  | nil =>
    intro acc res _ h
    unfold mvEventLoop at h
    cases h
    rfl
  | cons ep rest ih =>
    intro acc res hl h
    unfold mvEventLoop at h
    split at h
    · exact Except.noConfusion h
    · next acc' hacc =>
      have hmd : ∀ mp ∈ ep.2, ∀ sp ∈ mp.2, ∀ q ∈ sp.2, q.1 ≠ step :=
        hl ep (List.mem_cons_self ep rest)
      rw [mvModelLoop_of_no_match hmd ep.2 acc acc' hacc] at h
      exact ih acc res (fun e he => hl e (List.mem_cons_of_mem ep he)) h

/-- Inspector state with one event, one model "m00", one step "s00" and
one station "NZ.BFZ". -/
def insOneEvent : Inspector :=
  { srcrcv := []
    misfits := [("eventA", [("m00", [("s00", [("NZ.BFZ", ⟨1, 1⟩)])])])]
    windows := [] }

/-- C10 (counterexample): in a state satisfying the claim's condition (no
station key equals the queried step identifier "s01"), `misfit_values`
raises a `KeyError` instead of returning the empty list, because the
event stores model "m00" but no step "s01". -/
theorem misfit_values_keyerror_counterexample :
    (∀ ep ∈ insOneEvent.misfits, ∀ mp ∈ ep.2, ∀ sp ∈ mp.2, ∀ q ∈ sp.2,
      q.1 ≠ "s01") ∧
    misfit_values insOneEvent "m00" "s01" = .error "KeyError" :=
  ⟨by decide, by rfl⟩

/-- Concrete witness for the amended C10: a well-formed query returns the
empty list even though a scaled misfit is stored. -/
theorem misfit_values_empty_witness :
    misfit_values insOneEvent "m00" "s00" = .ok [] ∧ ([] : List ℚ) = [] :=
  ⟨by rfl,
   misfit_values_empty_when_no_station_matches insOneEvent "m00" "s00" []
     (by decide) (by rfl)⟩

/-! ### sort_misfits_by_station (Inspector.sort_misfits_by_station,
inspector.py lines 607-642)

The accumulation body reads `self.misfits[event][model][sta]["msft"]` and
`...[sta]["nwin"]`: the step level is missing, so the station identifier
is looked up among the STEP keys of `misfits[event][model]`.  For a real
station id (which contains ".", unlike step ids) this raises `KeyError`;
if a station id ever coincided with a step key, the following `[...]`
lookup would search that step's station dict for a station literally
named "msft"/"nwin" (`KeyError`), and on such a station the `+=` would
add a record dict to a number (`TypeError`). -/

/-- Station-aggregate record `{"msft": 0, "nwin": 0, "nevents": 0}`. -/
structure StaAgg where
  msft : ℚ
  nwin : ℚ
  nevents : ℕ
  deriving Repr, DecidableEq

/-- The buggy access `self.misfits[event][model][sta][field]`. -/
def buggyStationField (eventModelDict : Dict (Dict MisfitRec))
    (sta field : String) : Except String ℚ :=
  match List.lookup sta eventModelDict with
  | none => .error "KeyError"
  | some stepDict =>
    match List.lookup field stepDict with
    | none => .error "KeyError"
    | some _ => .error "TypeError"

/-- Station loop of `sort_misfits_by_station` for one (event, model,
step): initialise the aggregate on first sight, then accumulate via the
buggy station lookups (which raise on every real input). -/
def smbsStaLoop (eventModelDict : Dict (Dict MisfitRec)) :
    List (String × MisfitRec) → Dict StaAgg → Except String (Dict StaAgg)
  | [], acc => .ok acc
  | q :: rest, acc =>
    let acc1 := if (List.lookup q.1 acc).isSome then acc
                else dictSet acc q.1 ⟨0, 0, 0⟩
    match buggyStationField eventModelDict q.1 "msft" with
    | .error e => .error e
    | .ok dm =>
      match List.lookup q.1 acc1 with
      | none => .error "KeyError"
      | some a1 =>
        let acc2 := dictSet acc1 q.1 ⟨a1.msft + dm, a1.nwin, a1.nevents⟩
        match buggyStationField eventModelDict q.1 "nwin" with
        | .error e => .error e
        | .ok dn =>
          match List.lookup q.1 acc2 with
          | none => .error "KeyError"
          | some a2 =>
            smbsStaLoop eventModelDict rest
              (dictSet acc2 q.1 ⟨a2.msft, a2.nwin + dn, a2.nevents + 1⟩)

/-- Step loop for one (event, model): initialise `misfits[model][step]`
when absent and run the station loop; the last iterated step key is
recorded (the Python loop variable `step` survives the loop and is read
by the scaling pass). -/
def smbsStepLoop (eventModelDict : Dict (Dict MisfitRec)) (model : String) :
    List (String × Dict MisfitRec) → Dict (Dict StaAgg) → Option String →
    Except String (Dict (Dict StaAgg) × Option String)
  | [], md, last => .ok (md, last)
  | sp :: rest, md, _ =>
    let md1 := if (List.lookup sp.1 md).isSome then md
               else dictSet md sp.1 []
    match List.lookup sp.1 md1 with
    | none => .error "KeyError"
    | some stepAcc =>
      match smbsStaLoop eventModelDict sp.2 stepAcc with
      | .error e => .error e
      | .ok stepAcc' =>
        smbsStepLoop eventModelDict model rest (dictSet md1 sp.1 stepAcc')
          (some sp.1)

/-- Scaling pass run once per (event, model), after the step loop: divide
each station's misfit of `misfits[model][step]` — `step` being the stale
last loop value — by its event count (`NameError` when no step was ever
iterated, `ZeroDivisionError` on a zero count). -/
def smbsScale (md : Dict (Dict StaAgg)) :
    Option String → Except String (Dict (Dict StaAgg))
  | none => .error "NameError"
  | some ls =>
    match List.lookup ls md with
    | none => .error "KeyError"
    | some stepAcc =>
      match dictMapM (fun _ a =>
          if a.nevents = 0 then .error "ZeroDivisionError"
          else Except.ok (StaAgg.mk (a.msft / (a.nevents : ℚ)) a.nwin a.nevents))
          stepAcc with
      | .error e => .error e
      | .ok stepAcc' => .ok (dictSet md ls stepAcc')

/-- Model loop for one event, threading the aggregate dict and the stale
step variable. -/
def smbsModelLoop :
    List (String × Dict (Dict MisfitRec)) → Dict (Dict (Dict StaAgg)) →
    Option String → Except String (Dict (Dict (Dict StaAgg)) × Option String)
  | [], acc, last => .ok (acc, last)
  | mp :: rest, acc, last =>
    let acc1 := if (List.lookup mp.1 acc).isSome then acc
                else dictSet acc mp.1 []
    match List.lookup mp.1 acc1 with
    | none => .error "KeyError"
    | some md =>
      match smbsStepLoop mp.2 mp.1 mp.2 md last with
      | .error e => .error e
      | .ok (md1, last1) =>
        match smbsScale md1 last1 with
        | .error e => .error e
        | .ok md2 => smbsModelLoop rest (dictSet acc1 mp.1 md2) last1

/-- Event loop of `sort_misfits_by_station`. -/
def smbsEventLoop :
    Dict (Dict (Dict (Dict MisfitRec))) → Dict (Dict (Dict StaAgg)) →
    Option String → Except String (Dict (Dict (Dict StaAgg)) × Option String)
  | [], acc, last => .ok (acc, last)
  | ep :: rest, acc, last =>
    match smbsModelLoop ep.2 acc last with
    | .error e => .error e
    | .ok (acc1, last1) => smbsEventLoop rest acc1 last1

/-- Inspector.sort_misfits_by_station. -/
def sort_misfits_by_station (ins : Inspector) :
    Except String (Dict (Dict (Dict StaAgg))) :=
  match smbsEventLoop ins.misfits [] none with
  | .error e => .error e
  | .ok (acc, _) => .ok acc

/-- C6 (failing input): on a state with a single event, model "m00", step
"s00" and station "NZ.BFZ", `sort_misfits_by_station` raises `KeyError`
(the station id is looked up among the step keys) instead of returning
the station-keyed aggregate the spec describes. -/
theorem sort_misfits_by_station_keyerror :
    sort_misfits_by_station insOneEvent = .error "KeyError" := by rfl

/-! ### exclude_events (Inspector.exclude_events, inspector.py lines 704-777)

The bounding-box test is written
`coords and (lat < coords[0]) or (lat > coords[1]) or (lon < coords[2])
 or (lon > coords[3])`:
`and` binds tighter than `or`, so when `coords` is empty (the default,
`None`, is converted to `[]`) the first disjunct is falsy and the second
evaluates `coords[1]` on the empty list — an `IndexError` — before any
other criterion is reached.  Origin times are ISO-8601 strings of fixed
format, whose chronological order coincides with lexicographic string
order, so `UTCDateTime` comparisons are modelled by string comparisons. -/

/-- Numeric field access `self.srcrcv[event][key]`. -/
def getNumField (rec : Dict SrcVal) (k : String) : Except String ℚ :=
  match List.lookup k rec with
  | some (SrcVal.num q) => .ok q
  | some _ => .error "TypeError"
  | none => .error "KeyError"

/-- String field access (the origin time). -/
def getStrField (rec : Dict SrcVal) (k : String) : Except String String :=
  match List.lookup k rec with
  | some (SrcVal.str s) => .ok s
  | some _ => .error "TypeError"
  | none => .error "KeyError"

/-- Python list indexing `coords[i]`. -/
def listIndex (l : List ℚ) (i : ℕ) : Except String ℚ :=
  match l.get? i with
  | some q => .ok q
  | none => .error "IndexError"

/-- Python truthiness of an optional float argument (None and 0.0 are
falsy). -/
def truthyOptQ : Option ℚ → Bool
  | none => false
  | some q => decide (q ≠ 0)

/-- Python truthiness of an optional time argument. -/
def truthyOptS : Option String → Bool
  | none => false
  | some s => !s.isEmpty

/-- The bounding-box condition, in Python's evaluation order:
`(coords and lat < coords[0]) or lat > coords[1] or lon < coords[2] or
lon > coords[3]`. -/
def coordsTest (rec : Dict SrcVal) (coords : List ℚ) : Except String Bool :=
  match (if coords.isEmpty then Except.ok false else
          match getNumField rec "lat" with
          | .error e => .error e
          | .ok lat =>
            match listIndex coords 0 with
            | .error e => .error e
            | .ok c0 => Except.ok (decide (lat < c0))) with
  | .error e => .error e
  | .ok a =>
    if a then .ok true else
    match getNumField rec "lat" with
    | .error e => .error e
    | .ok lat =>
      match listIndex coords 1 with
      | .error e => .error e
      | .ok c1 =>
        if lat > c1 then .ok true else
        match getNumField rec "lon" with
        | .error e => .error e
        | .ok lon =>
          match listIndex coords 2 with
          | .error e => .error e
          | .ok c2 =>
            if lon < c2 then .ok true else
            match listIndex coords 3 with
            | .error e => .error e
            | .ok c3 => .ok (decide (lon > c3))

/-- The elif chain deciding whether one event is excluded: the first
applicable criterion wins and later criteria are not consulted. -/
def eventExcluded (rec : Dict SrcVal) (coords : List ℚ)
    (depth_min depth_max mag_min mag_max : Option ℚ)
    (starttime endtime : Option String) : Except String Bool :=
  match coordsTest rec coords with
  | .error e => .error e
  | .ok c =>
    if c then .ok true
    else if truthyOptQ depth_min || truthyOptQ depth_max then
      match getNumField rec "depth_m" with
      | .error e => .error e
      | .ok dm =>
        let sd := dm * (1 / 1000)
        if truthyOptQ depth_min && decide (sd < depth_min.getD 0) then
          .ok true
        else
          .ok (truthyOptQ depth_max && decide (sd > depth_max.getD 0))
    else if truthyOptQ mag_min || truthyOptQ mag_max then
      match getNumField rec "mag" with
      | .error e => .error e
      | .ok mg =>
        if truthyOptQ mag_min && decide (mg < mag_min.getD 0) then
          .ok true
        else
          .ok (truthyOptQ mag_max && decide (mg > mag_max.getD 0))
    else if truthyOptS starttime || truthyOptS endtime then
      match getStrField rec "time" with
      | .error e => .error e
      | .ok t =>
        if truthyOptS starttime && decide (t < starttime.getD "") then
          .ok true
        else
          -- the source compares `source_time < endtime` here (line 765)
          .ok (truthyOptS endtime && decide (t < endtime.getD ""))
    else .ok false

/-- First loop of `exclude_events`: collect the event keys (receivers,
whose keys contain ".", are skipped) that fall outside the criteria. -/
def collectOutside (coords : List ℚ)
    (depth_min depth_max mag_min mag_max : Option ℚ)
    (starttime endtime : Option String) :
    Dict (Dict SrcVal) → Except String (List String)
  | [] => .ok []
  | p :: rest =>
    if hasDot p.1 then
      collectOutside coords depth_min depth_max mag_min mag_max
        starttime endtime rest
    else
      match eventExcluded p.2 coords depth_min depth_max mag_min mag_max
          starttime endtime with
      | .error e => .error e
      | .ok b =>
        match collectOutside coords depth_min depth_max mag_min mag_max
            starttime endtime rest with
        | .error e => .error e
        | .ok r => .ok (if b then p.1 :: r else r)

/-- Python `del d[k]` (KeyError when the key is absent). -/
def delKey (d : Dict α) (k : String) : Except String (Dict α) :=
  if (List.lookup k d).isSome then .ok (d.filter (fun p => p.1 != k))
  else .error "KeyError"

/-- Second loop of `exclude_events`: remove each excluded event from the
misfits, the windows and the srcrcv mappings, in place. -/
def deleteLoop : List String → Inspector → Except String Inspector
  | [], ins => .ok ins
  | k :: rest, ins =>
    match delKey ins.misfits k with
    | .error e => .error e
    | .ok m1 =>
      match delKey ins.windows k with
      | .error e => .error e
      | .ok w1 =>
        match delKey ins.srcrcv k with
        | .error e => .error e
        | .ok s1 => deleteLoop rest ⟨s1, m1, w1⟩

/-- Inspector.exclude_events: collect the events outside the criteria,
delete them, and re-derive the axis metadata (`_get_info`, whose model
derivation raises when the misfit mapping became empty). -/
def exclude_events (ins : Inspector) (coords : List ℚ)
    (depth_min depth_max mag_min mag_max : Option ℚ)
    (starttime endtime : Option String) : Except String Inspector :=
  match collectOutside coords depth_min depth_max mag_min mag_max
      starttime endtime ins.srcrcv with
  | .error e => .error e
  | .ok outside =>
    match deleteLoop outside ins with
    | .error e => .error e
    | .ok ins1 =>
      match getModels ins1.misfits with
      | .error e => .error e
      | .ok _ => .ok ins1

/-- Event entry of the srcrcv mapping used by the C4 failing input. -/
def srcEventRec (mg : ℚ) : Dict SrcVal :=
  [("lat", SrcVal.num 0), ("lon", SrcVal.num 0),
   ("depth_m", SrcVal.num 10000),
   ("time", SrcVal.str "2020-01-01T00:00:00.000000Z"),
   ("mag", SrcVal.num mg), ("utm_x", SrcVal.num 0), ("utm_y", SrcVal.num 0)]

/-- Inspector state with an event of magnitude 4.5, an event of magnitude
6.0 and one station record. -/
def insMagFilter : Inspector :=
  { srcrcv := [("eventA", srcEventRec (9/2)), ("eventB", srcEventRec 6),
               ("NZ.BFZ", [("lat", SrcVal.num 1), ("lon", SrcVal.num 1),
                           ("elv_m", SrcVal.num 0), ("utm_x", SrcVal.num 1),
                           ("utm_y", SrcVal.num 1)])]
    misfits := [("eventA", [("m00", [("s00", [("NZ.BFZ", ⟨1, 1⟩)])])]),
                ("eventB", [("m00", [("s00", [("NZ.BFZ", ⟨1, 1⟩)])])])]
    windows := [("eventA", []), ("eventB", [])] }

/-- C4 (failing input): calling `exclude_events` with only a magnitude
range `[5.0, 9.0]` (no bounding box) raises `IndexError` — the operator
precedence in the bounding-box test evaluates `coords[1]` on the empty
list — instead of removing the magnitude-4.5 event. -/
theorem exclude_events_mag_only_indexerror :
    exclude_events insMagFilter [] none none (some 5) (some 9) none none =
      .error "IndexError" := by rfl

/-! ### save / load (Inspector.save lines 497-516, Inspector.load lines
529-552)

Both methods act on `variables = [v for v in vars(self) if '_' not in v]`:
exactly the three record mappings (all derived axis metadata lives in
underscored attributes).  `save` dumps them as JSON with
`sort_keys=True`; `load` reads the file back and sets each selected
attribute on the Inspector.  The JSON text layer is value-preserving on
these string-keyed mappings; its one observable effect is that every
dictionary comes back ordered by key, modelled by a recursive key sort. -/

/-- Attribute names of a freshly constructed Inspector, in definition
order (`vars(self).keys()`, inspector.py lines 61-72). -/
def inspectorVarNames : List String :=
  ["srcrcv", "misfits", "windows", "_utm", "_stations", "_events", "_str",
   "_models", "_steps", "_iterations"]

/-- The attributes selected by save and load: names with no underscore
anywhere (`'_' not in v`). -/
def saveVarNames : List String :=
  inspectorVarNames.filter (fun n => !(n.data.any (fun ch => ch == '_')))

theorem saveVarNames_eq_records :
    saveVarNames = ["srcrcv", "misfits", "windows"] := by decide

/-- Distinctness of the keys of a dict (always true of a Python dict). -/
def keysNodup (d : Dict α) : Prop := (d.map Prod.fst).Nodup

theorem keysNodup_of_perm {l l' : Dict α} (h : l.Perm l')
    (hnd : keysNodup l) : keysNodup l' :=
  ((h.map Prod.fst).nodup_iff).mp hnd

theorem lookup_eq_of_perm {l l' : Dict α} (h : l.Perm l')
    (hnd : keysNodup l) (k : String) :
    List.lookup k l = List.lookup k l' := by
  induction h with
  | nil => rfl
  | cons p hpm ih =>
    rename_i t1 t2
    by_cases hk : k = p.1
    · rw [lookup_cons_of_eq p t1 hk, lookup_cons_of_eq p t2 hk]
    · rw [lookup_cons_of_ne p t1 hk, lookup_cons_of_ne p t2 hk]
      exact ih (by
        have := hnd
        simp only [keysNodup, List.map_cons, List.nodup_cons] at this
        exact this.2)
  | swap x y l =>
    have hxy : y.1 ≠ x.1 := by
      simp only [keysNodup, List.map_cons, List.nodup_cons,
        List.mem_cons] at hnd
      exact fun e => hnd.1 (Or.inl e)
    by_cases hky : k = y.1
    · rw [lookup_cons_of_eq y (x :: l) hky,
          lookup_cons_of_ne x (y :: l) (fun e => hxy (hky ▸ e.symm ▸ rfl)),
          lookup_cons_of_eq y l hky]
    · by_cases hkx : k = x.1
      · rw [lookup_cons_of_ne y (x :: l) hky, lookup_cons_of_eq x l hkx,
            lookup_cons_of_eq x (y :: l) hkx]
      · rw [lookup_cons_of_ne y (x :: l) hky, lookup_cons_of_ne x l hkx,
            lookup_cons_of_ne x (y :: l) hkx, lookup_cons_of_ne y l hky]
  | trans h1 h2 ih1 ih2 =>
    exact (ih1 hnd).trans (ih2 (keysNodup_of_perm h1 hnd))

/-- Key-sorted copy of a dict: the order in which `json.dump(...,
sort_keys=True)` writes, and hence `json.load` restores, the entries. -/
def sortDict (d : Dict α) : Dict α :=
  d.mergeSort (fun a b => a.1 ≤ b.1)

theorem sortDict_perm (d : Dict α) : (sortDict d).Perm d :=
  List.mergeSort_perm d _

theorem lookup_sortDict (d : Dict α) (hnd : keysNodup d) (k : String) :
    List.lookup k (sortDict d) = List.lookup k d :=
  lookup_eq_of_perm (sortDict_perm d) (keysNodup_of_perm (sortDict_perm d).symm hnd) k

theorem keysNodup_mapVals (f : α → β) (d : Dict α) (hnd : keysNodup d) :
    keysNodup (mapVals f d) := by
  unfold keysNodup mapVals
  rw [List.map_map]
  exact hnd

/-- Deep dictionary equivalence: identical key sets and, entrywise,
equivalent values (Python's `==` on dicts, with `veq` comparing the
values). -/
def dictEquiv (veq : α → α → Prop) (a b : Dict α) : Prop :=
  (∀ k, (List.lookup k a).isSome = (List.lookup k b).isSome) ∧
  (∀ k va vb, List.lookup k a = some va → List.lookup k b = some vb →
    veq va vb)

theorem dictEquiv_sort (d : Dict α) (hnd : keysNodup d) :
    dictEquiv Eq (sortDict d) d := by
  refine ⟨fun k => by rw [lookup_sortDict d hnd k], fun k va vb h1 h2 => ?_⟩
  rw [lookup_sortDict d hnd k, h2] at h1
  injection h1 with h1
  exact h1.symm

/-- Canonicalisation of one dictionary level: sort the keys and
canonicalise each value. -/
theorem dictEquiv_sort_mapVals (canonV : α → α) (veq : α → α → Prop)
    (pred : α → Prop) (hv : ∀ a, pred a → veq (canonV a) a)
    (d : Dict α) (hnd : keysNodup d) (hall : ∀ p ∈ d, pred p.2) :
    dictEquiv veq (sortDict (mapVals canonV d)) d := by
  have hmv := keysNodup_mapVals canonV d hnd
  constructor
  · intro k
    rw [lookup_sortDict _ hmv k, lookup_mapVals]
    cases List.lookup k d <;> rfl
  · intro k va vb h1 h2
    rw [lookup_sortDict _ hmv k, lookup_mapVals, h2] at h1
    simp only [Option.map_some', Option.some.injEq] at h1
    subst h1
    exact hv vb (hall (k, vb) (lookup_mem h2))

/-- JSON round trip of one srcrcv value: the per-station sub-records of
an event come back key-sorted. -/
def canonSrcVal : SrcVal → SrcVal
  | .sub d => .sub (sortDict d)
  | v => v

/-- JSON round trip of one srcrcv entity record. -/
def canonSrcRec (rec : Dict SrcVal) : Dict SrcVal :=
  sortDict (mapVals canonSrcVal rec)

/-- JSON round trip of the srcrcv mapping. -/
def canonSrcrcv (d : Dict (Dict SrcVal)) : Dict (Dict SrcVal) :=
  sortDict (mapVals canonSrcRec d)

/-- JSON round trip of the misfit mapping, level by level. -/
def canonMisModel (d : Dict (Dict MisfitRec)) : Dict (Dict MisfitRec) :=
  sortDict (mapVals sortDict d)

def canonMisEvent (d : Dict (Dict (Dict MisfitRec))) :
    Dict (Dict (Dict MisfitRec)) :=
  sortDict (mapVals canonMisModel d)

def canonMisfits (d : Dict (Dict (Dict (Dict MisfitRec)))) :
    Dict (Dict (Dict (Dict MisfitRec))) :=
  sortDict (mapVals canonMisEvent d)

/-- JSON round trip of the window mapping, level by level. -/
def canonWinStep (d : Dict (Dict ChanRec)) : Dict (Dict ChanRec) :=
  sortDict (mapVals sortDict d)

def canonWinModel (d : Dict (Dict (Dict ChanRec))) :
    Dict (Dict (Dict ChanRec)) :=
  sortDict (mapVals canonWinStep d)

def canonWinEvent (d : Dict (Dict (Dict (Dict ChanRec)))) :
    Dict (Dict (Dict (Dict ChanRec)))  :=
  sortDict (mapVals canonWinModel d)

def canonWindows (d : Dict (Dict (Dict (Dict (Dict ChanRec))))) :
    Dict (Dict (Dict (Dict (Dict ChanRec))))  :=
  sortDict (mapVals canonWinEvent d)

/-- Well-formedness of a srcrcv value (sub-records have distinct keys). -/
def srcValNodup : SrcVal → Prop
  | .sub d => keysNodup d
  | _ => True

def srcRecNodup (rec : Dict SrcVal) : Prop :=
  keysNodup rec ∧ ∀ q ∈ rec, srcValNodup q.2

def srcNodup (d : Dict (Dict SrcVal)) : Prop :=
  keysNodup d ∧ ∀ p ∈ d, srcRecNodup p.2

def misModelNodup (d : Dict (Dict MisfitRec)) : Prop :=
  keysNodup d ∧ ∀ p ∈ d, keysNodup p.2

def misEventNodup (d : Dict (Dict (Dict MisfitRec))) : Prop :=
  keysNodup d ∧ ∀ p ∈ d, misModelNodup p.2

def misNodup (d : Dict (Dict (Dict (Dict MisfitRec)))) : Prop :=
  keysNodup d ∧ ∀ p ∈ d, misEventNodup p.2

def winStepNodup (d : Dict (Dict ChanRec)) : Prop :=
  keysNodup d ∧ ∀ p ∈ d, keysNodup p.2

def winModelNodup (d : Dict (Dict (Dict ChanRec))) : Prop :=
  keysNodup d ∧ ∀ p ∈ d, winStepNodup p.2

def winEventNodup (d : Dict (Dict (Dict (Dict ChanRec)))) : Prop :=
  keysNodup d ∧ ∀ p ∈ d, winModelNodup p.2

def winNodup (d : Dict (Dict (Dict (Dict (Dict ChanRec))))) : Prop :=
  keysNodup d ∧ ∀ p ∈ d, winEventNodup p.2

/-- Structural equality of srcrcv values: equal numbers, equal strings,
and sub-records with identical key sets and leaf values. -/
def srcValEquiv : SrcVal → SrcVal → Prop
  | .num a, .num b => a = b
  | .str a, .str b => a = b
  | .sub a, .sub b => dictEquiv Eq a b
  | _, _ => False

def srcRecEquiv : Dict SrcVal → Dict SrcVal → Prop := dictEquiv srcValEquiv

def srcEquiv : Dict (Dict SrcVal) → Dict (Dict SrcVal) → Prop :=
  dictEquiv srcRecEquiv

def misModelEquiv : Dict (Dict MisfitRec) → Dict (Dict MisfitRec) → Prop :=
  dictEquiv (dictEquiv Eq)

def misEventEquiv :
    Dict (Dict (Dict MisfitRec)) → Dict (Dict (Dict MisfitRec)) → Prop :=
  dictEquiv misModelEquiv

def misEquiv : Dict (Dict (Dict (Dict MisfitRec))) →
    Dict (Dict (Dict (Dict MisfitRec))) → Prop :=
  dictEquiv misEventEquiv

def winStepEquiv : Dict (Dict ChanRec) → Dict (Dict ChanRec) → Prop :=
  dictEquiv (dictEquiv Eq)

def winModelEquiv :
    Dict (Dict (Dict ChanRec)) → Dict (Dict (Dict ChanRec)) → Prop :=
  dictEquiv winStepEquiv

def winEventEquiv : Dict (Dict (Dict (Dict ChanRec))) →
    Dict (Dict (Dict (Dict ChanRec))) → Prop :=
  dictEquiv winModelEquiv

def winEquiv : Dict (Dict (Dict (Dict (Dict ChanRec)))) →
    Dict (Dict (Dict (Dict (Dict ChanRec)))) → Prop :=
  dictEquiv winEventEquiv

theorem srcValEquiv_canon (v : SrcVal) (h : srcValNodup v) :
    srcValEquiv (canonSrcVal v) v := by
  cases v with
  | num q => exact rfl
  | str s => exact rfl
  | sub d => exact dictEquiv_sort d h

theorem srcRecEquiv_canon (rec : Dict SrcVal) (h : srcRecNodup rec) :
    srcRecEquiv (canonSrcRec rec) rec :=
  dictEquiv_sort_mapVals canonSrcVal srcValEquiv srcValNodup
    srcValEquiv_canon rec h.1 (fun p hp => h.2 p hp)

theorem srcEquiv_canon (d : Dict (Dict SrcVal)) (h : srcNodup d) :
    srcEquiv (canonSrcrcv d) d :=
  dictEquiv_sort_mapVals canonSrcRec srcRecEquiv srcRecNodup
    srcRecEquiv_canon d h.1 h.2

theorem misModelEquiv_canon (d : Dict (Dict MisfitRec))
    (h : misModelNodup d) : misModelEquiv (canonMisModel d) d :=
  dictEquiv_sort_mapVals sortDict (dictEquiv Eq) keysNodup
    dictEquiv_sort d h.1 h.2

theorem misEventEquiv_canon (d : Dict (Dict (Dict MisfitRec)))
    (h : misEventNodup d) : misEventEquiv (canonMisEvent d) d :=
  dictEquiv_sort_mapVals canonMisModel misModelEquiv misModelNodup
    misModelEquiv_canon d h.1 h.2

theorem misEquiv_canon (d : Dict (Dict (Dict (Dict MisfitRec))))
    (h : misNodup d) : misEquiv (canonMisfits d) d :=
  dictEquiv_sort_mapVals canonMisEvent misEventEquiv misEventNodup
    misEventEquiv_canon d h.1 h.2

theorem winStepEquiv_canon (d : Dict (Dict ChanRec))
    (h : winStepNodup d) : winStepEquiv (canonWinStep d) d :=
  dictEquiv_sort_mapVals sortDict (dictEquiv Eq) keysNodup
    dictEquiv_sort d h.1 h.2

theorem winModelEquiv_canon (d : Dict (Dict (Dict ChanRec)))
    (h : winModelNodup d) : winModelEquiv (canonWinModel d) d :=
  dictEquiv_sort_mapVals canonWinStep winStepEquiv winStepNodup
    winStepEquiv_canon d h.1 h.2

theorem winEventEquiv_canon (d : Dict (Dict (Dict (Dict ChanRec))))
    (h : winEventNodup d) : winEventEquiv (canonWinEvent d) d :=
  dictEquiv_sort_mapVals canonWinModel winModelEquiv winModelNodup
    winModelEquiv_canon d h.1 h.2

theorem winEquiv_canon (d : Dict (Dict (Dict (Dict (Dict ChanRec)))))
    (h : winNodup d) : winEquiv (canonWindows d) d :=
  dictEquiv_sort_mapVals canonWinEvent winEventEquiv winEventNodup
    winEventEquiv_canon d h.1 h.2

/-- The persisted snapshot: the save dict holds exactly the attributes of
`saveVarNames` — the three record mappings, nothing derived (see
`saveVarNames_eq_records`) — serialised with `sort_keys=True`. -/
structure SaveFile where
  srcrcv : Dict (Dict SrcVal)
  misfits : Dict (Dict (Dict (Dict MisfitRec)))
  windows : Dict (Dict (Dict (Dict (Dict ChanRec))))

/-- Inspector.save: dump the selected attributes to JSON with sorted
keys. -/
def save (ins : Inspector) : SaveFile :=
  { srcrcv := canonSrcrcv ins.srcrcv
    misfits := canonMisfits ins.misfits
    windows := canonWindows ins.windows }

/-- Inspector.load on a fresh Inspector: set each selected attribute of
`saveVarNames` from the loaded dict (the fresh instance's three empty
mappings are all overwritten; its remaining attributes are underscored
and therefore neither saved nor loaded). -/
def load (fresh : Inspector) (f : SaveFile) : Inspector :=
  { fresh with srcrcv := f.srcrcv, misfits := f.misfits,
               windows := f.windows }

/-- C3: saving and loading on a fresh Inspector reproduces the three
record mappings with identical key sets and leaf values at every level,
and the persisted attribute set is exactly the three record mappings, so
derived (underscored) axis metadata is never persisted and must be
recomputed. -/
theorem save_load_round_trip (ins fresh : Inspector)
    (h1 : srcNodup ins.srcrcv) (h2 : misNodup ins.misfits)
    (h3 : winNodup ins.windows) :
    saveVarNames = ["srcrcv", "misfits", "windows"] ∧
    srcEquiv (load fresh (save ins)).srcrcv ins.srcrcv ∧
    misEquiv (load fresh (save ins)).misfits ins.misfits ∧
    winEquiv (load fresh (save ins)).windows ins.windows :=
  ⟨saveVarNames_eq_records, srcEquiv_canon _ h1, misEquiv_canon _ h2,
   winEquiv_canon _ h3⟩

instance : ∀ v : SrcVal, Decidable (srcValNodup v)
  | .num _ => .isTrue trivial
  | .str _ => .isTrue trivial
  | .sub d => inferInstanceAs (Decidable ((d.map Prod.fst).Nodup))

instance (d : Dict α) : Decidable (keysNodup d) :=
  inferInstanceAs (Decidable ((d.map Prod.fst).Nodup))

instance (rec : Dict SrcVal) : Decidable (srcRecNodup rec) :=
  inferInstanceAs (Decidable (_ ∧ _))

instance (d : Dict (Dict SrcVal)) : Decidable (srcNodup d) :=
  inferInstanceAs (Decidable (_ ∧ _))

instance (d : Dict (Dict MisfitRec)) : Decidable (misModelNodup d) :=
  inferInstanceAs (Decidable (_ ∧ _))

instance (d : Dict (Dict (Dict MisfitRec))) : Decidable (misEventNodup d) :=
  inferInstanceAs (Decidable (_ ∧ _))

instance (d : Dict (Dict (Dict (Dict MisfitRec)))) : Decidable (misNodup d) :=
  inferInstanceAs (Decidable (_ ∧ _))

instance (d : Dict (Dict ChanRec)) : Decidable (winStepNodup d) :=
  inferInstanceAs (Decidable (_ ∧ _))

instance (d : Dict (Dict (Dict ChanRec))) : Decidable (winModelNodup d) :=
  inferInstanceAs (Decidable (_ ∧ _))

instance (d : Dict (Dict (Dict (Dict ChanRec)))) : Decidable (winEventNodup d) :=
  inferInstanceAs (Decidable (_ ∧ _))

instance (d : Dict (Dict (Dict (Dict (Dict ChanRec))))) : Decidable (winNodup d) :=
  inferInstanceAs (Decidable (_ ∧ _))

/-- A small non-empty Inspector state for the round-trip witness. -/
def insRound : Inspector :=
  { srcrcv := [("eventA", [("lat", SrcVal.num 1), ("mag", SrcVal.num 5),
                           ("NZ.BFZ", SrcVal.sub [("dist_km", 40),
                                                  ("baz", 180)])]),
               ("NZ.BFZ", [("lat", SrcVal.num 2)])]
    misfits := [("eventA", [("m00", [("s00", [("NZ.BFZ", ⟨1, 2⟩)])])])]
    windows := [("eventA", [("m00", [("s00",
      [("NZ.BFZ", [("Z", chanOneWin)])])])])] }

/-- Concrete witness for C3: the round trip on a non-empty state. -/
theorem save_load_round_trip_witness :
    saveVarNames = ["srcrcv", "misfits", "windows"] ∧
    srcEquiv (load ⟨[], [], []⟩ (save insRound)).srcrcv insRound.srcrcv ∧
    misEquiv (load ⟨[], [], []⟩ (save insRound)).misfits insRound.misfits ∧
    winEquiv (load ⟨[], [], []⟩ (save insRound)).windows insRound.windows :=
  save_load_round_trip insRound ⟨[], [], []⟩ (by decide) (by decide) (by decide)

end Pyatoa
